import Mathlib

/-!
Shallow embedding of the `nb` crate (src/lib.rs): the `WouldBlock`-augmented
error type, its `map` and `From` operations, its `Debug` instance, and the four
control-flow adapter macros `block!`, `block_while!`, `await!` and `try_nb!`.

The looping macros are unbounded `loop { match ... }` constructs; a producer
expression that is re-evaluated on each iteration is modelled as a stream
`Nat → Result T E` giving the outcome of the producer's n-th invocation, and
the loops are run with explicit fuel.  The run functions return, next to the
outcome, the counters the specification talks about (number of producer
invocations, number of predicate evaluations, number of suspensions); the
counters are instrumentation only and do not alter the control flow of the
translated macro bodies.
-/

namespace Nb

/-- Rust's `core::result::Result<T, E>`. -/
inductive RResult (T E : Type) where
  | ok : T → RResult T E
  | err : E → RResult T E
deriving DecidableEq

/-- `nb::Error<E>` (src/lib.rs lines 369-375): a non-blocking error, adding a
`WouldBlock` variant to a caller-supplied error type `E`. -/
inductive Error (E : Type) where
  | Other : E → Error E
  | WouldBlock : Error E
deriving DecidableEq

/-- `nb::Result<T, E> = core::result::Result<T, Error<E>>` (line 363). -/
abbrev Result (T E : Type) : Type := RResult T (Error E)

/-- `Error::map` (lines 392-397): maps an `Error<E>` to `Error<T>` by applying
a function to a contained `Error::Other` value, leaving `Error::WouldBlock`
untouched. -/
def Error.map {E T : Type} (x : Error E) (op : E → T) : Error T :=
  match x with
  | Error.Other e => Error.Other (op e)
  | Error.WouldBlock => Error.WouldBlock

/-- Instrumented copy of `Error.map` that additionally counts how many times
`op` is invoked (a side-effect counter, mirroring each call site of `op` in
the source body of `map`). -/
def Error.mapInstr {E T : Type} (x : Error E) (op : E → T) : Error T × Nat :=
  match x with
  | Error.Other e => (Error.Other (op e), 1)
  | Error.WouldBlock => (Error.WouldBlock, 0)

/-- `impl From<E> for Error<E>` (lines 400-404): the implicit conversion from
a plain domain error into the augmented error. -/
def Error.fromE {E : Type} (error : E) : Error E :=
  Error.Other error

/-- `impl fmt::Debug for Error<E>` (lines 377-387), with the `Debug` formatter
of the payload type modelled as a function `E → String`: `Other(e)` delegates
to the payload's formatter, `WouldBlock` writes the literal string. -/
def Error.fmtDebug {E : Type} (fmtE : E → String) : Error E → String
  | Error.Other e => fmtE e
  | Error.WouldBlock => "WouldBlock"

/-- `futures::Async<T>`, the poll outcome used by `try_nb!`. -/
inductive Async (T : Type) where
  | Ready : T → Async T
  | NotReady : Async T
deriving DecidableEq

/-- Outcome of the `try_nb!` macro inside an enclosing function returning
`core::result::Result<Async<A>, E>`: either the macro expression evaluates to
a plain value and the enclosing function continues, or the macro makes the
enclosing function return early with a poll-shaped result. -/
inductive TryNbOutcome (T E A : Type) where
  | value : T → TryNbOutcome T E A
  | earlyReturn : RResult (Async A) E → TryNbOutcome T E A
deriving DecidableEq

/-- `try_nb!` (lines 541-551): a single `match` on one augmented result, no
loop.  `Err(Other(e))` makes the enclosing function return `Err(e)`,
`Err(WouldBlock)` makes it return `Ok(Async::NotReady)`, `Ok(x)` lets the
macro expression evaluate to `x`. -/
def try_nb {T E A : Type} (r : Result T E) : TryNbOutcome T E A :=
  match r with
  | RResult.err (Error.Other e) => TryNbOutcome.earlyReturn (RResult.err e)
  | RResult.err Error.WouldBlock => TryNbOutcome.earlyReturn (RResult.ok Async.NotReady)
  | RResult.ok x => TryNbOutcome.value x

/-- `block!` (lines 459-473): `loop { match $e { Err(Other(e)) => break Err(e),
Err(WouldBlock) => {}, Ok(x) => break Ok(x) } }`.  The producer expression
`$e` is modelled as the stream `f`; `i` is the index of the next invocation
(equal to the number of invocations already made); the run is bounded by
`fuel` iterations.  On termination the result carries the plain
(non-augmented) outcome together with the total number of producer
invocations. -/
def blockRun {T E : Type} (f : Nat → Result T E) : Nat → Nat → Option (RResult T E × Nat)
  | _, 0 => none
  | i, fuel + 1 =>
    match f i with
    | RResult.err (Error.Other e) => some (RResult.err e, i + 1)
    | RResult.err Error.WouldBlock => blockRun f (i + 1) fuel
    | RResult.ok x => some (RResult.ok x, i + 1)

/-- `block!` run from the first invocation. -/
def block {T E : Type} (f : Nat → Result T E) (fuel : Nat) : Option (RResult T E × Nat) :=
  blockRun f 0 fuel

/-- `block_while!` (lines 494-512): like `block!` but on each
`Err(WouldBlock)` the continuation predicate `$c` is evaluated once; if it is
false the loop breaks with `Err(WouldBlock)` in the augmented shape, and the
terminal case breaks with `Err(Other(e))` also in the augmented shape.  The
predicate expression is modelled as the stream `c` giving the outcome of its
j-th evaluation.  On termination the result carries the augmented outcome,
the number of producer invocations and the number of predicate
evaluations. -/
def blockWhileRun {T E : Type} (c : Nat → Bool) (f : Nat → Result T E) :
    Nat → Nat → Nat → Option (Result T E × Nat × Nat)
  | _, _, 0 => none
  | i, j, fuel + 1 =>
    match f i with
    | RResult.err (Error.Other e) => some (RResult.err (Error.Other e), i + 1, j)
    | RResult.err Error.WouldBlock =>
      if !(c j) then some (RResult.err Error.WouldBlock, i + 1, j + 1)
      else blockWhileRun c f (i + 1) (j + 1) fuel
    | RResult.ok x => some (RResult.ok x, i + 1, j)

/-- `block_while!` run from the first invocation and first predicate
evaluation. -/
def block_while {T E : Type} (c : Nat → Bool) (f : Nat → Result T E) (fuel : Nat) :
    Option (Result T E × Nat × Nat) :=
  blockWhileRun c f 0 0 fuel

/-- One step of the state machine for `await!` (lines 427-443), following the
design note: the generator body is modelled as an explicit state machine
driven by an external resumer, with the `yield` point represented as a
returned `suspended` state.  The state is the index of the next producer
invocation, which from state 0 equals the number of suspensions performed so
far. -/
inductive AwaitState (T E : Type) where
  | done : RResult T E → AwaitState T E
  | suspended : Nat → AwaitState T E
deriving DecidableEq

/-- The `match` body of `await!`: `Err(Other(e))` breaks with `Err(e)`,
`Ok(x)` breaks with `Ok(x)`, `Err(WouldBlock)` yields (one suspension) and the
expression is re-invoked on resumption. -/
def awaitStep {T E : Type} (f : Nat → Result T E) (i : Nat) : AwaitState T E :=
  match f i with
  | RResult.err (Error.Other e) => AwaitState.done (RResult.err e)
  | RResult.err Error.WouldBlock => AwaitState.suspended (i + 1)
  | RResult.ok x => AwaitState.done (RResult.ok x)

/-- The external resumer driving the `await!` state machine for at most `fuel`
steps.  On termination the result carries the plain outcome together with the
number of suspensions performed (the state index, when started from 0). -/
def awaitDrive {T E : Type} (f : Nat → Result T E) : Nat → Nat → Option (RResult T E × Nat)
  | _, 0 => none
  | i, fuel + 1 =>
    match awaitStep f i with
    | AwaitState.done r => some (r, i)
    | AwaitState.suspended i2 => awaitDrive f i2 fuel

end Nb

open Nb

/-- If the first `k` producer results from index `i` are all `WouldBlock`,
`blockRun` spends `k` fuel skipping over them. -/
theorem blockRun_wb_skip {T E : Type} (f : Nat → Result T E) (k : Nat) :
    ∀ i fuel, (∀ j, j < k → f (i + j) = RResult.err Error.WouldBlock) →
      blockRun f i (k + fuel) = blockRun f (i + k) fuel := by
  induction k with
  | zero => intro i fuel _; simp
  | succ k ih =>
    intro i fuel hwb
    have h0 : f i = RResult.err Error.WouldBlock := by
      simpa using hwb 0 (Nat.succ_pos k)
    have hshift : ∀ j, j < k → f (i + 1 + j) = RResult.err Error.WouldBlock := by
      intro j hj
      have := hwb (j + 1) (by omega)
      simpa [Nat.add_assoc, Nat.add_comm 1 j] using this
    have hfuel : k + 1 + fuel = (k + fuel) + 1 := by omega
    rw [hfuel]
    rw [show blockRun f i ((k + fuel) + 1) = blockRun f (i + 1) (k + fuel) by
      simp [blockRun, h0]]
    rw [ih (i + 1) fuel hshift]
    have : i + 1 + k = i + (k + 1) := by omega
    rw [this]

/-- With all the fuel spent on `WouldBlock` results, `blockRun` does not
terminate. -/
theorem blockRun_wb_none {T E : Type} (f : Nat → Result T E) (k : Nat) (i : Nat)
    (hwb : ∀ j, j < k → f (i + j) = RResult.err Error.WouldBlock) :
    blockRun f i k = none := by
  have := blockRun_wb_skip f k i 0 hwb
  simpa [blockRun] using this

/-- Any terminating `blockRun` has made at least one producer invocation past
its start index. -/
theorem blockRun_count_lb {T E : Type} (f : Nat → Result T E) :
    ∀ fuel i r n, blockRun f i fuel = some (r, n) → i + 1 ≤ n := by
  intro fuel
  induction fuel with
  | zero => intro i r n h; simp [blockRun] at h
  | succ fuel ih =>
    intro i r n h
    rw [blockRun] at h
    cases hfi : f i with
    | ok x => rw [hfi] at h; simp at h; omega
    | err e =>
      cases e with
      | Other e2 => rw [hfi] at h; simp at h; omega
      | WouldBlock =>
        rw [hfi] at h
        simp at h
        have := ih (i + 1) r n h
        omega

/-- Claim C4: `try_nb!` is a single-shot dispatch on one augmented result
value: `Err(WouldBlock)` makes the enclosing function return
`Ok(Async::NotReady)`, `Err(Other(e))` makes it return `Err(e)` with exactly
that error, and `Ok(t)` lets the adapter expression evaluate to the bare value
`t` so the enclosing function continues in the same call. -/
theorem try_nb_single_shot_spec {T E A : Type} :
    (try_nb (T := T) (E := E) (A := A) (RResult.err Error.WouldBlock) =
      TryNbOutcome.earlyReturn (RResult.ok Async.NotReady)) ∧
    (∀ e : E, try_nb (T := T) (A := A) (RResult.err (Error.Other e)) =
      TryNbOutcome.earlyReturn (RResult.err e)) ∧
    (∀ t : T, try_nb (E := E) (A := A) (RResult.ok t) = TryNbOutcome.value t) := by
  refine ⟨rfl, fun e => rfl, fun t => rfl⟩

/-- Claim C6: `Error::map` applied to `Other(e)` yields `Other(f(e))` and
applied to `WouldBlock` yields `WouldBlock`; the instrumented copy shows `f`
is invoked zero times on the `WouldBlock` path (and once on the `Other` path),
and the instrumented copy computes the same value as `map`. -/
theorem error_map_spec {E T : Type} (f : E → T) :
    (∀ e : E, Error.map (Error.Other e) f = Error.Other (f e)) ∧
    (Error.map (E := E) Error.WouldBlock f = Error.WouldBlock) ∧
    ((Error.mapInstr (E := E) Error.WouldBlock f).2 = 0) ∧
    (∀ e : E, (Error.mapInstr (Error.Other e) f).2 = 1) ∧
    (∀ x : Error E, (Error.mapInstr x f).1 = Error.map x f) := by
  refine ⟨fun e => rfl, rfl, rfl, fun e => rfl, fun x => ?_⟩
  cases x <;> rfl

/-- Claim C8: for every domain error value `e`, the implicit conversion
`From<E> for Error<E>` applied to `e` equals the explicit construction
`Other(e)`. -/
theorem error_from_spec {E : Type} (e : E) :
    Error.fromE e = Error.Other e := rfl

/-- Claim C10: the `Debug` formatting of the augmented error is transparent
for the terminal variant — `Other(e)` formats exactly as `e` formats, with no
wrapper text — and `WouldBlock` formats as the literal string
"WouldBlock", for every payload formatter. -/
theorem error_debug_spec {E : Type} (fmtE : E → String) :
    (∀ e : E, Error.fmtDebug fmtE (Error.Other e) = fmtE e) ∧
    Error.fmtDebug fmtE Error.WouldBlock = "WouldBlock" := by
  exact ⟨fun e => rfl, rfl⟩

/-- If the first `m` producer results are `WouldBlock` and the first `m`
predicate evaluations are true, `blockWhileRun` spends `m` fuel skipping over
them, advancing both counters in lockstep. -/
theorem blockWhileRun_skip {T E : Type} (c : Nat → Bool) (f : Nat → Result T E) (m : Nat) :
    ∀ i j fuel, (∀ d, d < m → f (i + d) = RResult.err Error.WouldBlock) →
      (∀ d, d < m → c (j + d) = true) →
      blockWhileRun c f i j (m + fuel) = blockWhileRun c f (i + m) (j + m) fuel := by
  induction m with
  | zero => intro i j fuel _ _; simp
  | succ m ih =>
    intro i j fuel hwb hc
    have h0 : f i = RResult.err Error.WouldBlock := by
      simpa using hwb 0 (Nat.succ_pos m)
    have hc0 : c j = true := by
      simpa using hc 0 (Nat.succ_pos m)
    have hshift : ∀ d, d < m → f (i + 1 + d) = RResult.err Error.WouldBlock := by
      intro d hd
      have := hwb (d + 1) (by omega)
      simpa [Nat.add_assoc, Nat.add_comm 1 d] using this
    have hcshift : ∀ d, d < m → c (j + 1 + d) = true := by
      intro d hd
      have := hc (d + 1) (by omega)
      simpa [Nat.add_assoc, Nat.add_comm 1 d] using this
    have hfuel : m + 1 + fuel = (m + fuel) + 1 := by omega
    rw [hfuel]
    rw [show blockWhileRun c f i j ((m + fuel) + 1) = blockWhileRun c f (i + 1) (j + 1) (m + fuel) by
      simp [blockWhileRun, h0, hc0]]
    rw [ih (i + 1) (j + 1) fuel hshift hcshift]
    have h1 : i + 1 + m = i + (m + 1) := by omega
    have h2 : j + 1 + m = j + (m + 1) := by omega
    rw [h1, h2]

/-- Any terminating `blockWhileRun` has made at least one producer invocation
past its start index. -/
theorem blockWhileRun_count_lb {T E : Type} (c : Nat → Bool) (f : Nat → Result T E) :
    ∀ fuel i j r n m, blockWhileRun c f i j fuel = some (r, n, m) → i + 1 ≤ n := by
  intro fuel
  induction fuel with
  | zero => intro i j r n m h; simp [blockWhileRun] at h
  | succ fuel ih =>
    intro i j r n m h
    rw [blockWhileRun] at h
    cases hfi : f i with
    | ok x => rw [hfi] at h; simp at h; omega
    | err e =>
      cases e with
      | Other e2 => rw [hfi] at h; simp at h; omega
      | WouldBlock =>
        rw [hfi] at h
        simp at h
        by_cases hcj : c j = true
        · rw [if_neg (by simp [hcj])] at h
          have := ih (i + 1) (j + 1) r n m h
          omega
        · rw [if_pos (by simp [Bool.not_eq_true] at hcj; simp [hcj])] at h
          simp at h
          omega

/-- If the first `k` producer results from index `i` are all `WouldBlock`,
`awaitDrive` spends `k` fuel suspending over them. -/
theorem awaitDrive_wb_skip {T E : Type} (f : Nat → Result T E) (k : Nat) :
    ∀ i fuel, (∀ j, j < k → f (i + j) = RResult.err Error.WouldBlock) →
      awaitDrive f i (k + fuel) = awaitDrive f (i + k) fuel := by
  induction k with
  | zero => intro i fuel _; simp
  | succ k ih =>
    intro i fuel hwb
    have h0 : f i = RResult.err Error.WouldBlock := by
      simpa using hwb 0 (Nat.succ_pos k)
    have hshift : ∀ j, j < k → f (i + 1 + j) = RResult.err Error.WouldBlock := by
      intro j hj
      have := hwb (j + 1) (by omega)
      simpa [Nat.add_assoc, Nat.add_comm 1 j] using this
    have hfuel : k + 1 + fuel = (k + fuel) + 1 := by omega
    rw [hfuel]
    rw [show awaitDrive f i ((k + fuel) + 1) = awaitDrive f (i + 1) (k + fuel) by
      simp [awaitDrive, awaitStep, h0]]
    rw [ih (i + 1) fuel hshift]
    have : i + 1 + k = i + (k + 1) := by omega
    rw [this]

/-- With all the fuel spent on `WouldBlock` results, `awaitDrive` does not
terminate. -/
theorem awaitDrive_wb_none {T E : Type} (f : Nat → Result T E) (k : Nat) (i : Nat)
    (hwb : ∀ j, j < k → f (i + j) = RResult.err Error.WouldBlock) :
    awaitDrive f i k = none := by
  have := awaitDrive_wb_skip f k i 0 hwb
  simpa [awaitDrive] using this

/-- Claim C1: for a producer that returns `WouldBlock` exactly `k` times and
then `Ok(v)`, `block!` invokes the producer exactly `k+1` times (and `k`
iterations of fuel do not suffice) and returns `Ok(v)`; for a producer that
returns `WouldBlock` exactly `k` times and then `Other(e)`, `block!` returns
`Err(e)` after exactly `k+1` invocations and makes no further invocations:
its result is unchanged under any modification of the producer past index
`k`. -/
theorem block_spec {T E : Type} (f : Nat → Result T E) (k : Nat)
    (hwb : ∀ i, i < k → f i = RResult.err Error.WouldBlock) :
    (∀ v : T, f k = RResult.ok v →
      (∀ fuel, k + 1 ≤ fuel → block f fuel = some (RResult.ok v, k + 1)) ∧
      block f k = none) ∧
    (∀ e : E, f k = RResult.err (Error.Other e) →
      (∀ fuel, k + 1 ≤ fuel → block f fuel = some (RResult.err e, k + 1)) ∧
      (∀ g : Nat → Result T E, (∀ i, i ≤ k → g i = f i) →
        ∀ fuel, block g fuel = block f fuel)) := by
  have hwb0 : ∀ j, j < k → f (0 + j) = RResult.err Error.WouldBlock := by
    intro j hj; simpa using hwb j hj
  constructor
  · intro v hv
    constructor
    · intro fuel hfuel
      obtain ⟨m, rfl⟩ : ∃ m, fuel = k + (m + 1) := ⟨fuel - (k + 1), by omega⟩
      unfold block
      rw [blockRun_wb_skip f k 0 (m + 1) hwb0]
      simp [blockRun, hv]
    · exact blockRun_wb_none f k 0 hwb0
  · intro e he
    have hmain : ∀ fuel, k + 1 ≤ fuel → block f fuel = some (RResult.err e, k + 1) := by
      intro fuel hfuel
      obtain ⟨m, rfl⟩ : ∃ m, fuel = k + (m + 1) := ⟨fuel - (k + 1), by omega⟩
      unfold block
      rw [blockRun_wb_skip f k 0 (m + 1) hwb0]
      simp [blockRun, he]
    refine ⟨hmain, ?_⟩
    intro g hg fuel
    have hgwb0 : ∀ j, j < k → g (0 + j) = RResult.err Error.WouldBlock := by
      intro j hj
      rw [hg (0 + j) (by omega)]
      exact hwb0 j hj
    have hge : g k = RResult.err (Error.Other e) := by
      rw [hg k (Nat.le_refl k)]; exact he
    rcases le_or_lt fuel k with hle | hlt
    · have h1 : block g fuel = none :=
        blockRun_wb_none g fuel 0 (fun j hj => hgwb0 j (by omega))
      have h2 : block f fuel = none :=
        blockRun_wb_none f fuel 0 (fun j hj => hwb0 j (by omega))
      rw [h1, h2]
    · have hgmain : block g fuel = some (RResult.err e, k + 1) := by
        obtain ⟨m, rfl⟩ : ∃ m, fuel = k + (m + 1) := ⟨fuel - (k + 1), by omega⟩
        unfold block
        rw [blockRun_wb_skip g k 0 (m + 1) hgwb0]
        simp [blockRun, hge]
      rw [hgmain, hmain fuel (by omega)]

/-- Claim C2: for a continuation predicate that is true on its first `m`
evaluations and false on evaluation `m+1` (the claim's `k = m+1`), and a
producer that always returns `WouldBlock`, `block_while!` invokes the
producer exactly `m+1` times, evaluates the predicate exactly `m+1` times
(once per observed `WouldBlock`), and returns the `WouldBlock` outcome, not a
domain error; moreover every terminating `block_while!` run makes at least
one producer invocation, so the producer runs even when the predicate is
already false. -/
theorem block_while_exhaustion_spec {T E : Type} (c : Nat → Bool) (f : Nat → Result T E)
    (m : Nat) (hc : ∀ j, j < m → c j = true) (hcm : c m = false)
    (hf : ∀ i, f i = RResult.err Error.WouldBlock) :
    (∀ fuel, m + 1 ≤ fuel →
      block_while c f fuel = some (RResult.err Error.WouldBlock, m + 1, m + 1)) ∧
    (∀ fuel r n p, block_while c f fuel = some (r, n, p) → 1 ≤ n) := by
  constructor
  · intro fuel hfuel
    obtain ⟨q, rfl⟩ : ∃ q, fuel = m + (q + 1) := ⟨fuel - (m + 1), by omega⟩
    unfold block_while
    rw [blockWhileRun_skip c f m 0 0 (q + 1) (fun d hd => hf (0 + d))
      (fun d hd => by simpa using hc d hd)]
    simp [blockWhileRun, hf m, hcm]
  · intro fuel r n p h
    have := blockWhileRun_count_lb c f fuel 0 0 r n p h
    omega

/-- Claim C3: for a producer that returns `WouldBlock` exactly `k` times and
then `Ok(v)`, the `await!` state machine driven by an external resumer
suspends exactly `k` times — one suspension per `WouldBlock` observation, so
`k` steps of driving do not complete — before producing `Ok(v)`; in
particular a producer that succeeds immediately (`k = 0`) causes no
suspension at all. -/
theorem await_spec {T E : Type} (f : Nat → Result T E) (k : Nat) (v : T)
    (hwb : ∀ i, i < k → f i = RResult.err Error.WouldBlock)
    (hk : f k = RResult.ok v) :
    (∀ fuel, k + 1 ≤ fuel → awaitDrive f 0 fuel = some (RResult.ok v, k)) ∧
    awaitDrive f 0 k = none := by
  have hwb0 : ∀ j, j < k → f (0 + j) = RResult.err Error.WouldBlock := by
    intro j hj; simpa using hwb j hj
  constructor
  · intro fuel hfuel
    obtain ⟨m, rfl⟩ : ∃ m, fuel = k + (m + 1) := ⟨fuel - (k + 1), by omega⟩
    rw [awaitDrive_wb_skip f k 0 (m + 1) hwb0]
    simp [awaitDrive, awaitStep, hk]
  · exact awaitDrive_wb_none f k 0 hwb0

/-- Claim C5: a terminal domain error `e` produced after `k` `WouldBlock`
results reaches the caller structurally unchanged through every adapter:
`block!` and the `await!` state machine surface it as `Err(e)`,
`block_while!` (under any predicate that keeps the loop alive) surfaces it as
`Err(Other(e))` in the augmented shape, and `try_nb!` makes the enclosing
function return `Err(e)`. -/
theorem error_propagation_spec {T E A : Type} (f : Nat → Result T E) (k : Nat) (e : E)
    (hwb : ∀ i, i < k → f i = RResult.err Error.WouldBlock)
    (hk : f k = RResult.err (Error.Other e)) :
    (∀ fuel, k + 1 ≤ fuel → block f fuel = some (RResult.err e, k + 1)) ∧
    (∀ c : Nat → Bool, (∀ j, j < k → c j = true) →
      ∀ fuel, k + 1 ≤ fuel →
        block_while c f fuel = some (RResult.err (Error.Other e), k + 1, k)) ∧
    (∀ fuel, k + 1 ≤ fuel → awaitDrive f 0 fuel = some (RResult.err e, k)) ∧
    try_nb (T := T) (A := A) (RResult.err (Error.Other e)) =
      TryNbOutcome.earlyReturn (RResult.err e) := by
  have hwb0 : ∀ j, j < k → f (0 + j) = RResult.err Error.WouldBlock := by
    intro j hj; simpa using hwb j hj
  refine ⟨?_, ?_, ?_, rfl⟩
  · intro fuel hfuel
    obtain ⟨m, rfl⟩ : ∃ m, fuel = k + (m + 1) := ⟨fuel - (k + 1), by omega⟩
    unfold block
    rw [blockRun_wb_skip f k 0 (m + 1) hwb0]
    simp [blockRun, hk]
  · intro c hc fuel hfuel
    obtain ⟨m, rfl⟩ : ∃ m, fuel = k + (m + 1) := ⟨fuel - (k + 1), by omega⟩
    unfold block_while
    rw [blockWhileRun_skip c f k 0 0 (m + 1) hwb0 (fun d hd => by simpa using hc d hd)]
    simp [blockWhileRun, hk]
  · intro fuel hfuel
    obtain ⟨m, rfl⟩ : ∃ m, fuel = k + (m + 1) := ⟨fuel - (k + 1), by omega⟩
    rw [awaitDrive_wb_skip f k 0 (m + 1) hwb0]
    simp [awaitDrive, awaitStep, hk]

/-- Claim C7: if after `k` `WouldBlock` results (each answered by a true
predicate evaluation) the producer returns `Ok(v)`, `block_while!` returns
`Ok(v)` immediately after `k+1` invocations with exactly `k` predicate
evaluations — so the predicate, whose values from evaluation `k` on are
unconstrained here, is not evaluated on or after the successful iteration;
likewise a terminal `Other(e)` is returned immediately in the augmented shape
as `Err(Other(e))`. -/
theorem block_while_immediate_spec {T E : Type} (c : Nat → Bool) (f : Nat → Result T E)
    (k : Nat) (hc : ∀ j, j < k → c j = true)
    (hwb : ∀ i, i < k → f i = RResult.err Error.WouldBlock) :
    (∀ v : T, f k = RResult.ok v → ∀ fuel, k + 1 ≤ fuel →
      block_while c f fuel = some (RResult.ok v, k + 1, k)) ∧
    (∀ e : E, f k = RResult.err (Error.Other e) → ∀ fuel, k + 1 ≤ fuel →
      block_while c f fuel = some (RResult.err (Error.Other e), k + 1, k)) := by
  have hwb0 : ∀ j, j < k → f (0 + j) = RResult.err Error.WouldBlock := by
    intro j hj; simpa using hwb j hj
  have hc0 : ∀ d, d < k → c (0 + d) = true := by
    intro d hd; simpa using hc d hd
  constructor
  · intro v hv fuel hfuel
    obtain ⟨m, rfl⟩ : ∃ m, fuel = k + (m + 1) := ⟨fuel - (k + 1), by omega⟩
    unfold block_while
    rw [blockWhileRun_skip c f k 0 0 (m + 1) hwb0 hc0]
    simp [blockWhileRun, hv]
  · intro e he fuel hfuel
    obtain ⟨m, rfl⟩ : ∃ m, fuel = k + (m + 1) := ⟨fuel - (k + 1), by omega⟩
    unfold block_while
    rw [blockWhileRun_skip c f k 0 0 (m + 1) hwb0 hc0]
    simp [blockWhileRun, he]

/-- Injection of a plain `block!` outcome into the augmented shape returned
by `block_while!`: success stays success, a domain error is wrapped as
`Other`. -/
def wrapR {T E : Type} : RResult T E → Result T E
  | RResult.ok x => RResult.ok x
  | RResult.err e => RResult.err (Error.Other e)

/-- With a constantly-true predicate, `blockWhileRun` computes exactly what
`blockRun` computes, with the outcome injected by `wrapR`, the same
invocation count, and one predicate evaluation per skipped `WouldBlock`. -/
theorem blockWhileRun_true_eq {T E : Type} (f : Nat → Result T E) :
    ∀ fuel i j,
      blockWhileRun (fun _ => true) f i j fuel =
        Option.map (fun p => (wrapR p.1, p.2, j + (p.2 - 1 - i))) (blockRun f i fuel) := by
  intro fuel
  induction fuel with
  | zero => intro i j; simp [blockWhileRun, blockRun]
  | succ fuel ih =>
    intro i j
    cases hfi : f i with
    | ok x =>
      simp [blockWhileRun, blockRun, hfi, wrapR]
    | err e =>
      cases e with
      | Other e2 =>
        simp [blockWhileRun, blockRun, hfi, wrapR]
      | WouldBlock =>
        rw [show blockWhileRun (fun _ => true) f i j (fuel + 1)
              = blockWhileRun (fun _ => true) f (i + 1) (j + 1) fuel by
            simp [blockWhileRun, hfi]]
        rw [show blockRun f i (fuel + 1) = blockRun f (i + 1) fuel by
            simp [blockRun, hfi]]
        rw [ih (i + 1) (j + 1)]
        cases hbr : blockRun f (i + 1) fuel with
        | none => simp
        | some p =>
          obtain ⟨r, n⟩ := p
          have hn := blockRun_count_lb f fuel (i + 1) r n hbr
          simp only [Option.map_some']
          have harith : j + 1 + (n - 1 - (i + 1)) = j + (n - 1 - i) := by omega
          rw [harith]

/-- Claim C9: for every producer and every fuel bound, `block_while!`
instantiated with a constantly-true predicate agrees with `block!` up to the
result shape: it terminates with `Ok(v)` after `n` producer invocations
exactly when `block!` does, terminates with `Err(Other(e))` exactly when
`block!` terminates with `Err(e)` after the same number of invocations, and
never produces `Err(WouldBlock)`. -/
theorem block_while_true_refines_block {T E : Type} (f : Nat → Result T E) (fuel : Nat) :
    (∀ v n, (∃ m, block_while (fun _ => true) f fuel = some (RResult.ok v, n, m)) ↔
      block f fuel = some (RResult.ok v, n)) ∧
    (∀ e n,
      (∃ m, block_while (fun _ => true) f fuel = some (RResult.err (Error.Other e), n, m)) ↔
      block f fuel = some (RResult.err e, n)) ∧
    (∀ n m, block_while (fun _ => true) f fuel ≠ some (RResult.err Error.WouldBlock, n, m)) := by
  have h : block_while (fun _ => true) f fuel =
      Option.map (fun p => (wrapR p.1, p.2, 0 + (p.2 - 1 - 0))) (block f fuel) :=
    blockWhileRun_true_eq f fuel 0 0
  refine ⟨?_, ?_, ?_⟩
  · intro v n
    constructor
    · rintro ⟨m, hm⟩
      rw [h] at hm
      cases hbf : block f fuel with
      | none => rw [hbf] at hm; simp at hm
      | some p =>
        obtain ⟨r, q⟩ := p
        rw [hbf] at hm
        simp only [Option.map_some'] at hm
        cases r with
        | ok y =>
          simp only [wrapR] at hm
          have h1 : y = v ∧ q = n ∧ 0 + (q - 1 - 0) = m := by simpa using hm
          rw [h1.1, h1.2.1]
        | err e2 => simp [wrapR] at hm
    · intro hbf
      refine ⟨0 + (n - 1 - 0), ?_⟩
      rw [h, hbf]
      simp [wrapR]
  · intro e n
    constructor
    · rintro ⟨m, hm⟩
      rw [h] at hm
      cases hbf : block f fuel with
      | none => rw [hbf] at hm; simp at hm
      | some p =>
        obtain ⟨r, q⟩ := p
        rw [hbf] at hm
        simp only [Option.map_some'] at hm
        cases r with
        | ok y => simp [wrapR] at hm
        | err e2 =>
          simp only [wrapR] at hm
          have h1 : e2 = e ∧ q = n ∧ 0 + (q - 1 - 0) = m := by simpa using hm
          rw [h1.1, h1.2.1]
    · intro hbf
      refine ⟨0 + (n - 1 - 0), ?_⟩
      rw [h, hbf]
      simp [wrapR]
  · intro n m hm
    rw [h] at hm
    cases hbf : block f fuel with
    | none => rw [hbf] at hm; simp at hm
    | some p =>
      obtain ⟨r, q⟩ := p
      rw [hbf] at hm
      simp only [Option.map_some'] at hm
      cases r with
      | ok y => simp [wrapR] at hm
      | err e2 => simp [wrapR] at hm

/-- Witness for C1: a producer that blocks twice then returns 7 is driven by
`block!` to `Ok(7)` in exactly 3 invocations. -/
theorem block_spec_witness :
    (∀ i : Nat, i < 2 → (if i < 2 then (RResult.err Error.WouldBlock : Result Nat Nat)
        else RResult.ok 7) = RResult.err Error.WouldBlock) ∧
    block (fun i => if i < 2 then (RResult.err Error.WouldBlock : Result Nat Nat)
        else RResult.ok 7) 5 = some (RResult.ok 7, 3) := by
  refine ⟨by decide, ?_⟩
  exact ((block_spec (fun i => if i < 2 then (RResult.err Error.WouldBlock : Result Nat Nat)
    else RResult.ok 7) 2 (by decide)).1 7 (by decide)).1 5 (by decide)

/-- Witness for C2: a predicate true once then false, against an
always-blocking producer, makes `block_while!` stop with the `WouldBlock`
outcome after 2 invocations and 2 predicate evaluations. -/
theorem block_while_exhaustion_spec_witness :
    ((fun j : Nat => decide (j < 1)) 1 = false) ∧
    block_while (fun j => decide (j < 1))
      (fun _ => (RResult.err Error.WouldBlock : Result Nat Nat)) 3 =
      some (RResult.err Error.WouldBlock, 2, 2) := by
  refine ⟨by decide, ?_⟩
  exact (block_while_exhaustion_spec (fun j => decide (j < 1))
    (fun _ => (RResult.err Error.WouldBlock : Result Nat Nat)) 1
    (by decide) (by decide) (fun i => rfl)).1 3 (by decide)

/-- Witness for C3: a producer that blocks twice then returns 7 makes the
`await!` state machine suspend exactly twice before producing `Ok(7)`, and 2
driving steps are not enough to complete. -/
theorem await_spec_witness :
    (∀ i : Nat, i < 2 → (if i < 2 then (RResult.err Error.WouldBlock : Result Nat Nat)
        else RResult.ok 7) = RResult.err Error.WouldBlock) ∧
    awaitDrive (fun i => if i < 2 then (RResult.err Error.WouldBlock : Result Nat Nat)
        else RResult.ok 7) 0 5 = some (RResult.ok 7, 2) ∧
    awaitDrive (fun i => if i < 2 then (RResult.err Error.WouldBlock : Result Nat Nat)
        else RResult.ok 7) 0 2 = none := by
  refine ⟨by decide, ?_, ?_⟩
  · exact (await_spec (fun i => if i < 2 then (RResult.err Error.WouldBlock : Result Nat Nat)
      else RResult.ok 7) 2 7 (by decide) (by decide)).1 5 (by decide)
  · exact (await_spec (fun i => if i < 2 then (RResult.err Error.WouldBlock : Result Nat Nat)
      else RResult.ok 7) 2 7 (by decide) (by decide)).2

/-- Witness for C5: the domain error 42, produced after one `WouldBlock`,
reaches the caller as exactly 42 through `block!`, `block_while!`, `await!`
and `try_nb!`. -/
theorem error_propagation_spec_witness :
    block (fun i => if i < 1 then (RResult.err Error.WouldBlock : Result Nat Nat)
        else RResult.err (Error.Other 42)) 3 = some (RResult.err 42, 2) ∧
    block_while (fun _ => true)
      (fun i => if i < 1 then (RResult.err Error.WouldBlock : Result Nat Nat)
        else RResult.err (Error.Other 42)) 3 =
      some (RResult.err (Error.Other 42), 2, 1) ∧
    awaitDrive (fun i => if i < 1 then (RResult.err Error.WouldBlock : Result Nat Nat)
        else RResult.err (Error.Other 42)) 0 3 = some (RResult.err 42, 1) ∧
    try_nb (T := Nat) (A := Nat) (RResult.err (Error.Other 42)) =
      TryNbOutcome.earlyReturn (RResult.err 42) := by
  have h := error_propagation_spec (A := Nat)
    (fun i => if i < 1 then (RResult.err Error.WouldBlock : Result Nat Nat)
      else RResult.err (Error.Other 42)) 1 42 (by decide) (by decide)
  exact ⟨h.1 3 (by decide), h.2.1 (fun _ => true) (by decide) 3 (by decide),
    h.2.2.1 3 (by decide), h.2.2.2⟩

/-- Witness for C7: the producer blocks once (with a true predicate
evaluation) then returns 9; `block_while!` returns `Ok(9)` after 2
invocations and only 1 predicate evaluation, even though the predicate is
already false at its next evaluation index. -/
theorem block_while_immediate_spec_witness :
    ((fun j : Nat => decide (j = 0)) 1 = false) ∧
    block_while (fun j => decide (j = 0))
      (fun i => if i < 1 then (RResult.err Error.WouldBlock : Result Nat Nat)
        else RResult.ok 9) 3 = some (RResult.ok 9, 2, 1) := by
  refine ⟨by decide, ?_⟩
  exact (block_while_immediate_spec (fun j => decide (j = 0))
    (fun i => if i < 1 then (RResult.err Error.WouldBlock : Result Nat Nat)
      else RResult.ok 9) 1 (by decide) (by decide)).1 9 (by decide) 3 (by decide)
